import Mathlib

/-!
Shallow embedding of the trading engine core of `app.py` (a Streamlit paper
trading bot).  The script defines `run_strategy` twice; the only call site is
line 133, which executes before the second definition at line 157 is reached
(and `st.rerun()` at line 135 restarts the script), so the cycle that runs is
the FIRST definition (lines 52-105): no break after a trade, no fallback
watchlist, a sell condition of only `current_price < sma_short`, and a SELL
log entry recording `round(pnl, 2)`.  That first definition is what is
embedded here; the never-called second definition's fallback watchlist (line
165) is kept only as a named list, to state what the spec's fallback sentence
refers to.

Numeric values are embedded as exact rationals (`ℚ`); the `pandas` NaN
produced by `rolling(window=5).mean()` on fewer than 5 rows is embedded as
`Option ℚ` with `none`, and the Python semantics that any `<`/`>` comparison
against NaN is `False` is embedded by `ltOptB`/`gtOptB` returning `false` on
`none`.  Python's `round(x, 2)` is embedded as rounding to the nearest
multiple of 1/100 with ties to even (`round2`).  Where the exact-rational
model is too coarse — the cost `(250000 / price) * price` that the program
computes in IEEE-754 binary64 doubles — a binary64 rounding model
(`floatRound`, round to 53 significant bits, ties to even) is provided for
the magnitudes that occur.  A failed or empty provider fetch
(`get_market_data` returning an empty DataFrame, `fetch_top_coins` returning
`[]`) is embedded as the empty list.
-/

namespace CryptoBot

/-- `START_CAPITAL = 1000000` (app.py line 9). -/
def START_CAPITAL : ℚ := 1000000

/-- `MAX_POSITIONS = 4` (app.py line 11). -/
def MAX_POSITIONS : Nat := 4

/-- `ALLOCATION_PER_TRADE = START_CAPITAL / MAX_POSITIONS` (app.py line 12). -/
def ALLOCATION_PER_TRADE : ℚ := START_CAPITAL / (MAX_POSITIONS : ℚ)

/-- A portfolio entry `{'amt': ..., 'avg_price': ...}` (app.py lines 18, 74). -/
structure Position where
  amt : ℚ
  avg_price : ℚ
deriving DecidableEq, Repr

/-- The `"Type"` field of a trade-log entry: `"BUY"` or `"SELL"`. -/
inductive Side where
  | BUY
  | SELL
deriving DecidableEq, Repr

/-- One entry of `st.session_state.trade_log` (app.py lines 75-82, 97-104);
the wall-clock `"Time"` field is not modelled. -/
structure TradeRec where
  symbol : String
  side : Side
  price : ℚ
  qty : ℚ
  pnl : ℚ
deriving DecidableEq, Repr

/-- The mutable session state: `st.session_state.balance`,
`st.session_state.portfolio` (an insertion-ordered dict, embedded as an
association list with unique keys), and `st.session_state.trade_log`. -/
structure TradingState where
  balance : ℚ
  portfolio : List (String × Position)
  trade_log : List TradeRec
deriving DecidableEq, Repr

/-- The external market: `fetch_top_coins` result (empty on failure, app.py
lines 30-39) and per-symbol close prices from `get_market_data` (empty on
failure, app.py lines 41-49), oldest first. -/
structure MarketEnv where
  topCoins : List String
  candles : String → List ℚ

/-- Dict membership / indexing: `symbol in portfolio` and
`portfolio[symbol]`. -/
def lookupPos : List (String × Position) → String → Option Position
  | [], _ => none
  | (k, v) :: rest, s => if k = s then some v else lookupPos rest s

/-- `del st.session_state.portfolio[symbol]` (app.py line 96): removes the
(unique) entry with the given key. -/
def erasePos : List (String × Position) → String → List (String × Position)
  | [], _ => []
  | (k, v) :: rest, s => if k = s then rest else (k, v) :: erasePos rest s

/-- `df['close'].iloc[-1]`: the most recent close (only used on a nonempty
frame). -/
def lastClose (closes : List ℚ) : ℚ :=
  (closes.getLast?).getD 0

/-- `df['close'].rolling(window=w).mean().iloc[-1]`: the mean of the trailing
`w` closes, or NaN (`none`) when fewer than `w` rows exist. -/
def rollingMeanLast (w : Nat) (closes : List ℚ) : Option ℚ :=
  if closes.length < w then none
  else some ((closes.drop (closes.length - w)).sum / (w : ℚ))

/-- Python `x > y` where `y` may be NaN: `false` on NaN. -/
def gtOptB (x : ℚ) : Option ℚ → Bool
  | none => false
  | some y => decide (y < x)

/-- Python `x < y` where `y` may be NaN: `false` on NaN. -/
def ltOptB (x : ℚ) : Option ℚ → Bool
  | none => false
  | some y => decide (x < y)

/-- Round half to even of a rational to an integer: the tie rule of Python's
`round` and of IEEE-754 round-to-nearest. -/
def roundHalfEven (x : ℚ) : ℤ :=
  if x - ⌊x⌋ < 1 / 2 then ⌊x⌋
  else if 1 / 2 < x - ⌊x⌋ then ⌊x⌋ + 1
  else if ⌊x⌋ % 2 = 0 then ⌊x⌋ else ⌊x⌋ + 1

/-- Python `round(x, 2)` (app.py line 103) over the exact rationals: the
nearest multiple of 1/100, ties to even. -/
def round2 (x : ℚ) : ℚ :=
  (roundHalfEven (100 * x) : ℚ) / 100

/-- The executed BUY (app.py lines 69-82): `qty = ALLOCATION_PER_TRADE /
price`, `cost = qty * price`, debit cash, insert the position, append a BUY
record with P/L 0. -/
def execBuy (st : TradingState) (symbol : String) (price : ℚ) : TradingState :=
  let qty := ALLOCATION_PER_TRADE / price
  let cost := qty * price
  { balance := st.balance - cost
    portfolio := st.portfolio ++ [(symbol, { amt := qty, avg_price := price })]
    trade_log := st.trade_log ++
      [{ symbol := symbol, side := Side.BUY, price := price, qty := qty, pnl := 0 }] }

/-- The executed SELL (app.py lines 91-104): `revenue = qty * price`,
`pnl = revenue - qty * entry_price`, credit cash, delete the position, append
a SELL record whose logged P/L is `round(pnl, 2)` (line 103). -/
def execSell (st : TradingState) (symbol : String) (pos : Position) (price : ℚ) :
    TradingState :=
  let revenue := pos.amt * price
  let pnl := revenue - pos.amt * pos.avg_price
  { balance := st.balance + revenue
    portfolio := erasePos st.portfolio symbol
    trade_log := st.trade_log ++
      [{ symbol := symbol, side := Side.SELL, price := price, qty := pos.amt,
         pnl := round2 pnl }] }

/-- One iteration of the executed scan loop (app.py lines 55-105) for one
symbol.  Skips on empty candle data; otherwise the BUY branch applies when
the symbol is not held and fewer than `MAX_POSITIONS` positions are open
(lines 66-83), the SELL branch when the symbol is held and
`current_price < sma_short` (lines 86-105).  There is no break flag: the
executed loop never stops early. -/
def scanStep (env : MarketEnv) (st : TradingState) (symbol : String) :
    TradingState :=
  if env.candles symbol = [] then st
  else
    match lookupPos st.portfolio symbol with
    | none =>
      if st.portfolio.length < MAX_POSITIONS then
        if gtOptB (lastClose (env.candles symbol))
            (rollingMeanLast 5 (env.candles symbol)) then
          if ALLOCATION_PER_TRADE / lastClose (env.candles symbol) *
              lastClose (env.candles symbol) ≤ st.balance then
            execBuy st symbol (lastClose (env.candles symbol))
          else st
        else st
      else st
    | some pos =>
      if ltOptB (lastClose (env.candles symbol))
          (rollingMeanLast 5 (env.candles symbol)) then
        execSell st symbol pos (lastClose (env.candles symbol))
      else st

/-- The executed `for symbol in top_coins` loop (app.py lines 55-105): every
ranked symbol is visited; no break. -/
def scanLoop (env : MarketEnv) : TradingState → List String → TradingState
  | st, [] => st
  | st, symbol :: rest => scanLoop env (scanStep env st symbol) rest

/-- The watchlist at app.py line 165.  It appears only in the second,
never-called definition of `run_strategy`; the executed cycle has no
fallback.  It is named here to state what the spec's fallback sentence
refers to. -/
def fallbackWatchlist : List String :=
  ["BTC/USDT", "ETH/USDT", "SOL/USDT", "DOGE/USDT"]

/-- The executed trading cycle `run_strategy` (app.py lines 52-105, the
binding in force at the only call site, line 133): scan the ranked
instruments in order; an empty ranking is scanned as-is (no fallback). -/
def run_strategy (env : MarketEnv) (st : TradingState) : TradingState :=
  scanLoop env st env.topCoins

/-- The dashboard holdings valuation (app.py line 121): sum of
`amt * last close` over the held symbols whose candle fetch is nonempty;
symbols with an empty fetch are filtered out of the sum. -/
def current_holdings_val (env : MarketEnv) : List (String × Position) → ℚ
  | [] => 0
  | (s, p) :: rest =>
    (if env.candles s = [] then 0 else p.amt * lastClose (env.candles s)) +
      current_holdings_val env rest

/-- The IEEE-754 binary64 rounding of a rational `x ≥ 1` in the normal range:
round to 53 significant bits, ties to even.  Models the double arithmetic of
the Python floats in app.py at the magnitudes that occur there (prices,
allocations); negative values, subnormals and overflow do not occur at the
inputs considered and are not modelled. -/
def floatRound (x : ℚ) : ℚ :=
  (roundHalfEven (x * 2 ^ ((52 : ℤ) - (Nat.log 2 ⌊x⌋.toNat : ℤ))) : ℚ) *
    2 ^ ((Nat.log 2 ⌊x⌋.toNat : ℤ) - 52)

/-- The BUY cost `qty * current_price = (ALLOCATION_PER_TRADE / price) *
price` (app.py lines 69-70) as the program's binary64 doubles compute it: a
rounded division followed by a rounded multiplication (`250000.0` and the
integer prices considered are exactly representable). -/
def costDouble (price : ℚ) : ℚ :=
  floatRound (floatRound (ALLOCATION_PER_TRADE / price) * price)

/-- The initial session state (app.py lines 15-20): full starting capital,
no positions, empty trade log. -/
def initState : TradingState :=
  { balance := START_CAPITAL, portfolio := [], trade_log := [] }

/-- A market whose only ranked instrument has five candles ending in a jump
above the 5-close mean (a bullish signal). -/
def envBull : MarketEnv :=
  { topCoins := ["BTC/USDT"], candles := fun _ => [1, 1, 1, 1, 2] }

/-- A market with a bullish five-candle history ending at price 100. -/
def envThin : MarketEnv :=
  { topCoins := ["BTC/USDT"], candles := fun _ => [1, 1, 1, 1, 100] }

/-- A state whose cash is far below one allocation slot. -/
def stPoor : TradingState :=
  { balance := 1000, portfolio := [], trade_log := [] }

/-- A market whose only ranked instrument returns just two candles, fewer
than the 5-candle SMA window. -/
def envSellNoSMA : MarketEnv :=
  { topCoins := ["BTC/USDT"],
    candles := fun s => if s = "BTC/USDT" then [100, 100] else [] }

/-- A state holding one unit of the ranked instrument bought at 50. -/
def stHeldNoSMA : TradingState :=
  { balance := 0, portfolio := [("BTC/USDT", { amt := 1, avg_price := 50 })],
    trade_log := [] }

/-- A market whose ranking call returned nothing. -/
def envEmptyRank : MarketEnv :=
  { topCoins := [], candles := fun _ => [] }

/-- A market whose ranking call returned nothing while every instrument has a
bullish candle history: a fallback scan would have traded. -/
def envEmptyBull : MarketEnv :=
  { topCoins := [], candles := fun _ => [1, 1, 1, 1, 2] }

/-- A market ranking two instruments, both with bearish candle histories
(last close below the 5-close mean). -/
def envTwoBear : MarketEnv :=
  { topCoins := ["BTC/USDT", "ETH/USDT"], candles := fun _ => [2, 2, 2, 2, 1] }

/-- A state holding one unit of each of the two ranked instruments, bought
at 2. -/
def stTwoHeld : TradingState :=
  { balance := 0,
    portfolio := [("BTC/USDT", { amt := 1, avg_price := 2 }),
                  ("ETH/USDT", { amt := 1, avg_price := 2 })],
    trade_log := [] }

/-! ### Helper lemmas about the embedded operations -/

theorem lastClose_mem {l : List ℚ} (h : l ≠ []) : lastClose l ∈ l := by
  induction l with
  | nil => exact absurd rfl h
  | cons a t ih =>
    cases t with
    | nil => simp [lastClose]
    | cons b t2 =>
      have hm := ih (by simp)
      simp only [lastClose, List.getLast?_cons_cons] at hm ⊢
      exact List.mem_cons_of_mem _ hm

theorem lookupPos_mem {pf : List (String × Position)} {s : String} {pos : Position}
    (h : lookupPos pf s = some pos) : (s, pos) ∈ pf := by
  induction pf with
  | nil => simp [lookupPos] at h
  | cons hd tl ih =>
    obtain ⟨k, v⟩ := hd
    simp only [lookupPos] at h
    split at h
    · rename_i hk
      obtain rfl := hk
      obtain rfl : v = pos := by injection h
      exact List.mem_cons_self _ _
    · exact List.mem_cons_of_mem _ (ih h)

theorem mem_erasePos {pf : List (String × Position)} {s : String}
    {x : String × Position} (h : x ∈ erasePos pf s) : x ∈ pf := by
  induction pf with
  | nil => simp [erasePos] at h
  | cons hd tl ih =>
    obtain ⟨k, v⟩ := hd
    simp only [erasePos] at h
    split at h
    · exact List.mem_cons_of_mem _ h
    · rcases List.mem_cons.mp h with h1 | h2
      · exact h1 ▸ List.mem_cons_self _ _
      · exact List.mem_cons_of_mem _ (ih h2)

theorem length_erasePos_le (pf : List (String × Position)) (s : String) :
    (erasePos pf s).length ≤ pf.length := by
  induction pf with
  | nil => simp [erasePos]
  | cons hd tl ih =>
    obtain ⟨k, v⟩ := hd
    simp only [erasePos]
    split
    · simp
    · simpa using Nat.succ_le_succ ih

theorem lookupPos_eq_none_of_not_mem {pf : List (String × Position)} {s : String}
    (h : s ∉ pf.map Prod.fst) : lookupPos pf s = none := by
  induction pf with
  | nil => rfl
  | cons hd tl ih =>
    obtain ⟨k, v⟩ := hd
    simp only [List.map_cons, List.mem_cons] at h
    push_neg at h
    simp only [lookupPos]
    rw [if_neg (fun hk : k = s => h.1 hk.symm)]
    exact ih h.2

theorem lookupPos_erase_self {pf : List (String × Position)} {s : String}
    (h : (pf.map Prod.fst).Nodup) : lookupPos (erasePos pf s) s = none := by
  induction pf with
  | nil => rfl
  | cons hd tl ih =>
    obtain ⟨k, v⟩ := hd
    simp only [List.map_cons, List.nodup_cons] at h
    simp only [erasePos]
    split
    · rename_i hk
      obtain rfl := hk
      exact lookupPos_eq_none_of_not_mem h.1
    · rename_i hk
      simp only [lookupPos]
      rw [if_neg hk]
      exact ih h.2

theorem lookupPos_append_self {pf : List (String × Position)} {s : String}
    {p : Position} (h : lookupPos pf s = none) :
    lookupPos (pf ++ [(s, p)]) s = some p := by
  induction pf with
  | nil => simp [lookupPos]
  | cons hd tl ih =>
    obtain ⟨k, v⟩ := hd
    simp only [lookupPos] at h
    split at h
    · exact absurd h (by simp)
    · rename_i hk
      simp only [List.cons_append, lookupPos]
      rw [if_neg hk]
      exact ih h

theorem ALLOCATION_PER_TRADE_nonneg : 0 ≤ ALLOCATION_PER_TRADE := by
  norm_num [ALLOCATION_PER_TRADE, START_CAPITAL, MAX_POSITIONS]

theorem roundHalfEven_eq_floor {x : ℚ} {f : ℤ} (h1 : (f : ℚ) ≤ x)
    (h2 : x < (f : ℚ) + 1 / 2) : roundHalfEven x = f := by
  have hf : ⌊x⌋ = f := Int.floor_eq_iff.mpr ⟨h1, by linarith⟩
  unfold roundHalfEven
  rw [hf, if_pos (by linarith)]

theorem roundHalfEven_eq_add_one {x : ℚ} {f : ℤ} (h1 : (f : ℚ) + 1 / 2 < x)
    (h2 : x < (f : ℚ) + 1) : roundHalfEven x = f + 1 := by
  have hf : ⌊x⌋ = f := Int.floor_eq_iff.mpr ⟨by linarith, h2⟩
  unfold roundHalfEven
  rw [hf, if_neg (by linarith), if_pos (by linarith)]

theorem floatRound_eq {x : ℚ} (e : ℕ) (h1 : (2 : ℚ) ^ e ≤ x)
    (h2 : x < 2 ^ (e + 1)) :
    floatRound x =
      (roundHalfEven (x * 2 ^ ((52 : ℤ) - (e : ℤ))) : ℚ) * 2 ^ ((e : ℤ) - 52) := by
  have hfl : (2 : ℤ) ^ e ≤ ⌊x⌋ := by
    rw [Int.le_floor]
    push_cast
    exact h1
  have hfu : ⌊x⌋ < (2 : ℤ) ^ (e + 1) := by
    rw [Int.floor_lt]
    push_cast
    exact h2
  have hnn : (0 : ℤ) ≤ ⌊x⌋ := le_trans (by positivity) hfl
  have htn : (⌊x⌋.toNat : ℤ) = ⌊x⌋ := Int.toNat_of_nonneg hnn
  have hlog : Nat.log 2 ⌊x⌋.toNat = e := by
    apply Nat.log_eq_of_pow_le_of_lt_pow
    · have h := htn ▸ hfl
      exact_mod_cast h
    · have h := htn ▸ hfu
      exact_mod_cast h
  unfold floatRound
  rw [hlog]

/-- Exhaustive case analysis for one scan iteration of the executed loop: it
is a no-op, an executed BUY, or an executed SELL, with the guards that led
there. -/
theorem scanStep_cases (env : MarketEnv) (st : TradingState) (s : String) :
    scanStep env st s = st ∨
    (env.candles s ≠ [] ∧ lookupPos st.portfolio s = none ∧
      st.portfolio.length < MAX_POSITIONS ∧
      gtOptB (lastClose (env.candles s)) (rollingMeanLast 5 (env.candles s)) = true ∧
      ALLOCATION_PER_TRADE / lastClose (env.candles s) * lastClose (env.candles s) ≤
        st.balance ∧
      scanStep env st s = execBuy st s (lastClose (env.candles s))) ∨
    (∃ pos, env.candles s ≠ [] ∧ lookupPos st.portfolio s = some pos ∧
      ltOptB (lastClose (env.candles s)) (rollingMeanLast 5 (env.candles s)) = true ∧
      scanStep env st s = execSell st s pos (lastClose (env.candles s))) := by
  unfold scanStep
  split
  · exact Or.inl rfl
  · rename_i hne
    split
    · rename_i hlk
      split
      · rename_i hlt
        split
        · rename_i hgt
          split
          · rename_i hfunds
            exact Or.inr (Or.inl ⟨hne, hlk, hlt, hgt, hfunds, rfl⟩)
          · exact Or.inl rfl
        · exact Or.inl rfl
      · exact Or.inl rfl
    · rename_i pos hpos
      split
      · rename_i hcond
        exact Or.inr (Or.inr ⟨pos, hne, hpos, hcond, rfl⟩)
      · exact Or.inl rfl

theorem scanStep_trade_log_le (env : MarketEnv) (st : TradingState) (s : String) :
    (scanStep env st s).trade_log.length ≤ st.trade_log.length + 1 := by
  rcases scanStep_cases env st s with heq | ⟨_, _, _, _, _, heq⟩ | ⟨_, _, _, _, heq⟩ <;>
    rw [heq]
  · simp
  · simp [execBuy]
  · simp [execSell]

theorem scanStep_portfolio_le (env : MarketEnv) (st : TradingState) (s : String)
    (h : st.portfolio.length ≤ MAX_POSITIONS) :
    (scanStep env st s).portfolio.length ≤ MAX_POSITIONS := by
  rcases scanStep_cases env st s with heq | ⟨_, _, hlt, _, _, heq⟩ | ⟨_, _, _, _, heq⟩ <;>
    rw [heq]
  · exact h
  · simpa [execBuy] using hlt
  · exact le_trans (by simpa [execSell] using length_erasePos_le st.portfolio s) h

theorem scanStep_nonneg (env : MarketEnv) (st : TradingState) (s : String)
    (hb : 0 ≤ st.balance)
    (hamt : ∀ p ∈ st.portfolio, 0 ≤ (Prod.snd p).amt)
    (hpx : ∀ c ∈ env.candles s, 0 ≤ c) :
    0 ≤ (scanStep env st s).balance ∧
      ∀ p ∈ (scanStep env st s).portfolio, 0 ≤ (Prod.snd p).amt := by
  have hprice : env.candles s ≠ [] → 0 ≤ lastClose (env.candles s) :=
    fun hne => hpx _ (lastClose_mem hne)
  rcases scanStep_cases env st s with heq | ⟨hne, _, _, _, hfunds, heq⟩ |
      ⟨pos, hne, hpos, _, heq⟩ <;> rw [heq]
  · exact ⟨hb, hamt⟩
  · refine ⟨by simpa [execBuy] using hfunds, ?_⟩
    intro p hp
    simp only [execBuy, List.mem_append, List.mem_singleton] at hp
    rcases hp with hp | hp
    · exact hamt p hp
    · subst hp
      exact div_nonneg ALLOCATION_PER_TRADE_nonneg (hprice hne)
  · constructor
    · have h1 : 0 ≤ pos.amt := hamt _ (lookupPos_mem hpos)
      have h2 : 0 ≤ pos.amt * lastClose (env.candles s) :=
        mul_nonneg h1 (hprice hne)
      simpa [execSell] using add_nonneg hb h2
    · intro p hp
      simp only [execSell] at hp
      exact hamt p (mem_erasePos hp)

theorem scanLoop_trade_log_le (env : MarketEnv) (syms : List String) :
    ∀ st : TradingState,
      (scanLoop env st syms).trade_log.length ≤
        st.trade_log.length + syms.length := by
  induction syms with
  | nil => intro st; simp [scanLoop]
  | cons s rest ih =>
    intro st
    simp only [scanLoop, List.length_cons]
    have h1 := ih (scanStep env st s)
    have h2 := scanStep_trade_log_le env st s
    omega

theorem scanLoop_portfolio_le (env : MarketEnv) (syms : List String) :
    ∀ st : TradingState, st.portfolio.length ≤ MAX_POSITIONS →
      (scanLoop env st syms).portfolio.length ≤ MAX_POSITIONS := by
  induction syms with
  | nil => intro st h; simpa [scanLoop] using h
  | cons s rest ih =>
    intro st h
    simp only [scanLoop]
    exact ih _ (scanStep_portfolio_le env st s h)

theorem scanLoop_nonneg (env : MarketEnv) (syms : List String)
    (hpx : ∀ s, ∀ c ∈ env.candles s, 0 ≤ c) :
    ∀ st : TradingState, 0 ≤ st.balance →
      (∀ p ∈ st.portfolio, 0 ≤ (Prod.snd p).amt) →
      0 ≤ (scanLoop env st syms).balance ∧
        ∀ p ∈ (scanLoop env st syms).portfolio, 0 ≤ (Prod.snd p).amt := by
  induction syms with
  | nil => intro st hb hamt; exact ⟨hb, hamt⟩
  | cons s rest ih =>
    intro st hb hamt
    have hstep := scanStep_nonneg env st s hb hamt (hpx s)
    simp only [scanLoop]
    exact ih _ hstep.1 hstep.2

/-! ### Claim theorems -/

/-- C1 counterexample: the executed cycle has no stop after the first trade.
With two held instruments both bearish (last close 1 below the 5-close mean
9/5), one cycle executes two SELLs: the trade log grows from 0 to 2 entries,
contradicting the claim that no cycle executes a second trade. -/
theorem run_strategy_two_sells_in_one_cycle :
    stTwoHeld.trade_log.length = 0 ∧
    (run_strategy envTwoBear stTwoHeld).trade_log.length = 2 := by
  constructor
  · rfl
  · norm_num [run_strategy, scanLoop, scanStep, envTwoBear, stTwoHeld,
      lookupPos, erasePos, execSell, lastClose, rollingMeanLast, ltOptB,
      gtOptB, List.getLast?_cons_cons, MAX_POSITIONS, List.cons_ne_nil]

/-- C1 amended: the executed cycle scans every ranked instrument with no
early stop, executing at most one trade per scanned instrument; the trade
log therefore grows by at most the number of ranked instruments in one
cycle (not by at most one). -/
theorem run_strategy_trade_log_growth_le_scanned (env : MarketEnv)
    (st : TradingState) :
    (run_strategy env st).trade_log.length ≤
      st.trade_log.length + env.topCoins.length := by
  unfold run_strategy
  exact scanLoop_trade_log_le env env.topCoins st

/-- C4 counterexample: on an empty ranking the executed cycle scans nothing
and is the identity on the state (zero trades), even in a market where a
scan of the claimed fallback watchlist from the same state would have
executed 4 BUYs. -/
theorem run_strategy_empty_ranking_no_fallback_trades :
    run_strategy envEmptyBull initState = initState ∧
    initState.trade_log.length = 0 ∧
    (scanLoop envEmptyBull initState fallbackWatchlist).trade_log.length = 4 := by
  refine ⟨rfl, rfl, ?_⟩
  have hbe : ("BTC/USDT" : String) ≠ "ETH/USDT" := by decide
  have hbs : ("BTC/USDT" : String) ≠ "SOL/USDT" := by decide
  have hbd : ("BTC/USDT" : String) ≠ "DOGE/USDT" := by decide
  have hes : ("ETH/USDT" : String) ≠ "SOL/USDT" := by decide
  have hed : ("ETH/USDT" : String) ≠ "DOGE/USDT" := by decide
  have hsd : ("SOL/USDT" : String) ≠ "DOGE/USDT" := by decide
  norm_num [scanLoop, scanStep, fallbackWatchlist, envEmptyBull, initState,
    lookupPos, execBuy, lastClose, rollingMeanLast, gtOptB, ltOptB,
    List.getLast?_cons_cons, ALLOCATION_PER_TRADE, START_CAPITAL, MAX_POSITIONS,
    List.cons_ne_nil, hbe, hbs, hbd, hes, hed, hsd]

/-- C4 amended: when the ranking call fails or returns an empty list, the
executed Controller scans nothing: the cycle is a no-op on the state and
raises no error; the fallback watchlist exists only in the never-called
second definition of `run_strategy`. -/
theorem run_strategy_empty_ranking_scans_nothing (env : MarketEnv)
    (st : TradingState) (h : env.topCoins = []) :
    run_strategy env st = st := by
  unfold run_strategy
  rw [h]
  rfl

/-- C4 amended witness: the no-op at a concrete empty ranking. -/
theorem run_strategy_empty_ranking_scans_nothing_witness :
    run_strategy envEmptyRank initState = initState :=
  run_strategy_empty_ranking_scans_nothing envEmptyRank initState rfl

/-- C5: from any state with nonnegative cash and nonnegative held quantities,
a cycle over any market with nonnegative prices leaves cash nonnegative (and
held quantities nonnegative, so the invariant holds after any sequence of
cycles); within the cycle every BUY is guarded by `balance >= cost` and every
SELL only adds nonnegative revenue. -/
theorem run_strategy_preserves_nonneg_cash (env : MarketEnv) (st : TradingState)
    (hpx : ∀ s, ∀ c ∈ env.candles s, 0 ≤ c)
    (hb : 0 ≤ st.balance)
    (hamt : ∀ p ∈ st.portfolio, 0 ≤ (Prod.snd p).amt) :
    0 ≤ (run_strategy env st).balance ∧
      ∀ p ∈ (run_strategy env st).portfolio, 0 ≤ (Prod.snd p).amt := by
  unfold run_strategy
  exact scanLoop_nonneg env env.topCoins hpx st hb hamt

/-- C5 witness: the invariant at the configured starting capital on a market
that triggers a BUY. -/
theorem run_strategy_preserves_nonneg_cash_witness :
    0 ≤ (run_strategy envBull initState).balance ∧
      ∀ p ∈ (run_strategy envBull initState).portfolio, 0 ≤ (Prod.snd p).amt :=
  run_strategy_preserves_nonneg_cash envBull initState
    (by
      intro s c hc
      simp only [envBull, List.mem_cons, List.not_mem_nil, or_false] at hc
      rcases hc with rfl | rfl | rfl | rfl | rfl <;> norm_num)
    (by norm_num [initState, START_CAPITAL])
    (by simp [initState])

/-- C9: a cycle never pushes the number of open positions above
`MAX_POSITIONS`: a BUY only executes when the count is strictly below the
maximum, and a SELL only removes, so the cap is preserved by every cycle. -/
theorem run_strategy_preserves_position_cap (env : MarketEnv)
    (st : TradingState) (h : st.portfolio.length ≤ MAX_POSITIONS) :
    (run_strategy env st).portfolio.length ≤ MAX_POSITIONS := by
  unfold run_strategy
  exact scanLoop_portfolio_le env env.topCoins st h

/-- C9 witness: the cap at the empty initial portfolio on a bullish market. -/
theorem run_strategy_preserves_position_cap_witness :
    (run_strategy envBull initState).portfolio.length ≤ MAX_POSITIONS :=
  run_strategy_preserves_position_cap envBull initState (by simp [initState])

/-- C6: a BUY at `p_buy` of an instrument not yet held stores quantity
`ALLOCATION_PER_TRADE / p_buy`, and selling that same position at `p_sell`
leaves final cash equal to the cash before the BUY plus
`(p_sell - p_buy) * quantity`. -/
theorem buy_then_sell_cash_conservation (st : TradingState) (s : String)
    (p_buy p_sell : ℚ) (hnone : lookupPos st.portfolio s = none) :
    lookupPos (execBuy st s p_buy).portfolio s =
      some { amt := ALLOCATION_PER_TRADE / p_buy, avg_price := p_buy } ∧
    (execSell (execBuy st s p_buy) s
        { amt := ALLOCATION_PER_TRADE / p_buy, avg_price := p_buy } p_sell).balance =
      st.balance + (p_sell - p_buy) * (ALLOCATION_PER_TRADE / p_buy) := by
  constructor
  · simpa [execBuy] using lookupPos_append_self hnone
  · simp only [execBuy, execSell]
    ring

/-- C6 witness: buy at 100, sell at 110, from the initial state. -/
theorem buy_then_sell_cash_conservation_witness :
    lookupPos (execBuy initState "BTC/USDT" 100).portfolio "BTC/USDT" =
      some { amt := ALLOCATION_PER_TRADE / 100, avg_price := 100 } ∧
    (execSell (execBuy initState "BTC/USDT" 100) "BTC/USDT"
        { amt := ALLOCATION_PER_TRADE / 100, avg_price := 100 } 110).balance =
      initState.balance + (110 - 100) * (ALLOCATION_PER_TRADE / 100) :=
  buy_then_sell_cash_conservation initState "BTC/USDT" 100 110 rfl

/-- C7 counterexample: the executed SELL logs `round(pnl, 2)`, not the exact
P/L.  Selling 1 unit bought at 50.004 for 100 has exact P/L 49.996, but the
appended record carries 50. -/
theorem execSell_rounds_logged_pnl :
    (execSell initState "BTC/USDT"
        { amt := 1, avg_price := 50 + 4 / 1000 } 100).trade_log =
      [{ symbol := "BTC/USDT", side := Side.SELL, price := 100, qty := 1,
         pnl := 50 }] ∧
    (1 : ℚ) * 100 - 1 * (50 + 4 / 1000) ≠ 50 := by
  constructor
  · have hr : round2 ((1 : ℚ) * 100 - 1 * (50 + 4 / 1000)) = 50 := by
      have harg : (100 : ℚ) * ((1 : ℚ) * 100 - 1 * (50 + 4 / 1000)) =
          (4999 : ℚ) + 6 / 10 := by norm_num
      unfold round2
      rw [harg, roundHalfEven_eq_add_one (f := 4999) (by norm_num) (by norm_num)]
      norm_num
    have hlog : (execSell initState "BTC/USDT"
        { amt := 1, avg_price := 50 + 4 / 1000 } 100).trade_log =
        [{ symbol := "BTC/USDT", side := Side.SELL, price := 100, qty := 1,
           pnl := round2 ((1 : ℚ) * 100 - 1 * (50 + 4 / 1000)) }] := rfl
    rw [hlog, hr]
  · norm_num

/-- C7 amended: closing a held position at `price` credits cash by exactly
`quantity * price` with the stored quantity, appends exactly one SELL record
whose logged P/L is `quantity * price - quantity * avg_entry_price` rounded
to 2 decimal places (Python `round`, app.py line 103), and removes the
position (its key no longer resolves, given the portfolio keys are unique as
in a dict). -/
theorem execSell_close_position_spec (st : TradingState) (s : String)
    (pos : Position) (price : ℚ)
    (hnd : (st.portfolio.map Prod.fst).Nodup) :
    (execSell st s pos price).balance = st.balance + pos.amt * price ∧
    (execSell st s pos price).trade_log = st.trade_log ++
      [{ symbol := s, side := Side.SELL, price := price, qty := pos.amt,
         pnl := round2 (pos.amt * price - pos.amt * pos.avg_price) }] ∧
    (execSell st s pos price).portfolio = erasePos st.portfolio s ∧
    lookupPos (execSell st s pos price).portfolio s = none := by
  refine ⟨rfl, rfl, rfl, ?_⟩
  simp only [execSell]
  exact lookupPos_erase_self hnd

/-- C7 amended witness: closing the held unit bought at 50 at price 95. -/
theorem execSell_close_position_spec_witness :
    (execSell stHeldNoSMA "BTC/USDT" { amt := 1, avg_price := 50 } 95).balance =
      stHeldNoSMA.balance + 1 * 95 ∧
    (execSell stHeldNoSMA "BTC/USDT" { amt := 1, avg_price := 50 } 95).trade_log =
      stHeldNoSMA.trade_log ++
        [{ symbol := "BTC/USDT", side := Side.SELL, price := 95, qty := 1,
           pnl := round2 (1 * 95 - 1 * 50) }] ∧
    (execSell stHeldNoSMA "BTC/USDT" { amt := 1, avg_price := 50 } 95).portfolio =
      erasePos stHeldNoSMA.portfolio "BTC/USDT" ∧
    lookupPos (execSell stHeldNoSMA "BTC/USDT"
        { amt := 1, avg_price := 50 } 95).portfolio "BTC/USDT" = none :=
  execSell_close_position_spec stHeldNoSMA "BTC/USDT"
    { amt := 1, avg_price := 50 } 95 (by simp [stHeldNoSMA])

/-- C8: when an instrument is eligible for entry (not held, below the
position cap, bullish signal) but the cost exceeds the available cash, the
scan iteration is a no-op: the state (cash, positions, trade log) is
returned unchanged and the scan continues. -/
theorem scanStep_insufficient_funds_no_mutation (env : MarketEnv)
    (st : TradingState) (s : String)
    (hne : env.candles s ≠ [])
    (hlk : lookupPos st.portfolio s = none)
    (hlt : st.portfolio.length < MAX_POSITIONS)
    (hsig : gtOptB (lastClose (env.candles s))
      (rollingMeanLast 5 (env.candles s)) = true)
    (hfunds : st.balance < ALLOCATION_PER_TRADE / lastClose (env.candles s) *
      lastClose (env.candles s)) :
    scanStep env st s = st := by
  rcases scanStep_cases env st s with heq | ⟨_, _, _, _, hf, _⟩ |
      ⟨pos, _, hpos, _, _⟩
  · exact heq
  · exact absurd hf (not_le.mpr hfunds)
  · simp [hlk] at hpos

/-- C8 witness: a bullish instrument at price 100 with only 1000 in cash. -/
theorem scanStep_insufficient_funds_no_mutation_witness :
    stPoor.balance < ALLOCATION_PER_TRADE / lastClose (envThin.candles "BTC/USDT") *
        lastClose (envThin.candles "BTC/USDT") ∧
    scanStep envThin stPoor "BTC/USDT" = stPoor := by
  have hlast : lastClose (envThin.candles "BTC/USDT") = 100 := by
    simp [envThin, lastClose, List.getLast?_cons_cons]
  have hfunds : stPoor.balance <
      ALLOCATION_PER_TRADE / lastClose (envThin.candles "BTC/USDT") *
        lastClose (envThin.candles "BTC/USDT") := by
    rw [hlast]
    norm_num [stPoor, ALLOCATION_PER_TRADE, START_CAPITAL, MAX_POSITIONS]
  refine ⟨hfunds, ?_⟩
  exact scanStep_insufficient_funds_no_mutation envThin stPoor "BTC/USDT"
    (by simp [envThin]) rfl
    (by simp [stPoor, MAX_POSITIONS])
    (by
      rw [gtOptB.eq_def]
      simp only [envThin]
      norm_num [lastClose, rollingMeanLast, List.getLast?_cons_cons])
    hfunds

/-- C10 counterexample: in the program's IEEE-754 binary64 doubles the BUY
cost `(250000 / price) * price` is not the allocation exactly: at price 49
it is `250000 + 2 ^ (-35)` (the double `250000.00000000003`), one unit in
the last place above `ALLOCATION_PER_TRADE`. -/
theorem costDouble_not_allocation_at_49 :
    costDouble 49 = ALLOCATION_PER_TRADE + 1 / 34359738368 ∧
    costDouble 49 ≠ ALLOCATION_PER_TRADE := by
  have halloc : ALLOCATION_PER_TRADE / (49 : ℚ) = 250000 / 49 := by
    norm_num [ALLOCATION_PER_TRADE, START_CAPITAL, MAX_POSITIONS]
  have hx1 : floatRound (250000 / 49 : ℚ) = 701219150367347 / 137438953472 := by
    rw [floatRound_eq 12 (by norm_num) (by norm_num)]
    have harg : (250000 / 49 : ℚ) * 2 ^ ((52 : ℤ) - ((12 : ℕ) : ℤ)) =
        274877906944000000 / 49 := by
      norm_num
    rw [harg,
      roundHalfEven_eq_add_one (f := 5609753202938775) (by norm_num) (by norm_num)]
    norm_num
  have hx2 : floatRound ((701219150367347 / 137438953472 : ℚ) * 49) =
      250000 + 1 / 34359738368 := by
    rw [floatRound_eq 17 (by norm_num) (by norm_num)]
    have harg : ((701219150367347 / 137438953472 : ℚ) * 49) *
        2 ^ ((52 : ℤ) - ((17 : ℕ) : ℤ)) = 34359738368000003 / 4 := by
      norm_num
    rw [harg,
      roundHalfEven_eq_add_one (f := 8589934592000000) (by norm_num) (by norm_num)]
    norm_num
  have hval : costDouble 49 = 250000 + 1 / 34359738368 := by
    unfold costDouble
    rw [halloc, hx1, hx2]
  constructor
  · rw [hval]
    norm_num [ALLOCATION_PER_TRADE, START_CAPITAL, MAX_POSITIONS]
  · rw [hval]
    norm_num [ALLOCATION_PER_TRADE, START_CAPITAL, MAX_POSITIONS]

/-- C10 amended: in the exact rational arithmetic of the embedding the BUY
cost `(ALLOCATION_PER_TRADE / price) * price` equals `ALLOCATION_PER_TRADE`
for every positive price, so the embedded ledger debits exactly
`ALLOCATION_PER_TRADE = START_CAPITAL / MAX_POSITIONS = 250000`; in the
program's binary64 doubles the computed cost can differ from 250000 by one
unit in the last place (price 49), so the float debits are equal only up to
that rounding error. -/
theorem execBuy_debits_allocation_per_slot (st : TradingState) (s : String)
    (price : ℚ) (hp : 0 < price) :
    ALLOCATION_PER_TRADE / price * price = ALLOCATION_PER_TRADE ∧
    (execBuy st s price).balance = st.balance - ALLOCATION_PER_TRADE ∧
    ALLOCATION_PER_TRADE = 250000 := by
  have hc : ALLOCATION_PER_TRADE / price * price = ALLOCATION_PER_TRADE :=
    div_mul_cancel₀ _ hp.ne'
  refine ⟨hc, ?_, by norm_num [ALLOCATION_PER_TRADE, START_CAPITAL, MAX_POSITIONS]⟩
  simp only [execBuy]
  rw [hc]

/-- C10 amended witness: the exact-arithmetic debit at price 3 from the
initial state. -/
theorem execBuy_debits_allocation_per_slot_witness :
    ALLOCATION_PER_TRADE / 3 * 3 = ALLOCATION_PER_TRADE ∧
    (execBuy initState "BTC/USDT" 3).balance =
      initState.balance - ALLOCATION_PER_TRADE ∧
    ALLOCATION_PER_TRADE = 250000 :=
  execBuy_debits_allocation_per_slot initState "BTC/USDT" 3 (by norm_num)

/-- C2 counterexample: a held position of 2 units with entry price 100 whose
candle fetch is empty is valued at 0 by `current_holdings_val`, not at its
entry value `2 * 100`: the source omits unpriced positions instead of
falling back to the entry price. -/
theorem current_holdings_val_omits_unpriced_position :
    current_holdings_val { topCoins := [], candles := fun _ => [] }
        [("BTC/USDT", { amt := 2, avg_price := 100 })] = 0 ∧
      current_holdings_val { topCoins := [], candles := fun _ => [] }
        [("BTC/USDT", { amt := 2, avg_price := 100 })] ≠ (2 : ℚ) * 100 := by
  have h0 : current_holdings_val { topCoins := [], candles := fun _ => [] }
      [("BTC/USDT", { amt := 2, avg_price := 100 })] = 0 := by
    simp [current_holdings_val]
  exact ⟨h0, by rw [h0]; norm_num⟩

/-- C2 amended: `current_holdings_val` is a pure function of the portfolio
and the fetched prices, and a position whose candle fetch fails or is empty
contributes nothing to the positions value (it is omitted, not valued at its
entry price). -/
theorem current_holdings_val_unpriced_contributes_zero (env : MarketEnv)
    (pf : List (String × Position)) (s : String) (pos : Position)
    (h : env.candles s = []) :
    current_holdings_val env ((s, pos) :: pf) = current_holdings_val env pf := by
  simp [current_holdings_val, h]

/-- C2 amended witness: dropping an unpriced position does not change the
valuation. -/
theorem current_holdings_val_unpriced_contributes_zero_witness :
    current_holdings_val envEmptyRank
        [("ETH/USDT", { amt := 3, avg_price := 7 })] =
      current_holdings_val envEmptyRank [] :=
  current_holdings_val_unpriced_contributes_zero envEmptyRank []
    "ETH/USDT" { amt := 3, avg_price := 7 } rfl

/-- C3: with fewer than 5 candles the rolling mean is NaN and every price
comparison against it is False, so the executed scan iteration is a no-op
for that instrument: no BUY, no SELL, and cash, positions and the trade log
are unchanged — including when the instrument is currently held (the
executed sell condition, app.py line 91, is only `current_price <
sma_short`). -/
theorem scanStep_insufficient_data_no_mutation (env : MarketEnv)
    (st : TradingState) (s : String)
    (hlen : (env.candles s).length < 5) :
    scanStep env st s = st := by
  have hsma : rollingMeanLast 5 (env.candles s) = none := by
    unfold rollingMeanLast
    rw [if_pos hlen]
  rcases scanStep_cases env st s with heq | ⟨_, _, _, hgt, _, _⟩ |
      ⟨pos, _, _, hlt2, _⟩
  · exact heq
  · rw [hsma] at hgt
    simp [gtOptB] at hgt
  · rw [hsma] at hlt2
    simp [ltOptB] at hlt2

/-- C3 witness: with 2 candles the scan iteration leaves the state untouched
even though the instrument is held. -/
theorem scanStep_insufficient_data_no_mutation_witness :
    (envSellNoSMA.candles "BTC/USDT").length < 5 ∧
    scanStep envSellNoSMA stHeldNoSMA "BTC/USDT" = stHeldNoSMA :=
  ⟨by norm_num [envSellNoSMA],
   scanStep_insufficient_data_no_mutation envSellNoSMA stHeldNoSMA "BTC/USDT"
     (by norm_num [envSellNoSMA])⟩

end CryptoBot
